import Mathlib

/-!
Verification of the document-tracking and edit-application core of the
`lspc` editor/LSP broker.

The Rust source is embedded shallowly:

* `lsp` positions, ranges and change events become plain structures over
  `Nat`/`Int`, text becomes `List Char`;
* `ropey::Rope` becomes `List Char` with explicit line arithmetic;
* `Instant` becomes a `Nat` timestamp passed in explicitly;
* `&mut self` methods become state-passing functions;
* the broker's `HashMap<Url, TrackingFile>` becomes an association list
  keyed by the uri string, and notifications sent to a language-server
  handler are collected in an output list.
-/

/-- `lsp::Position` (line / character, both unsigned). -/
structure Pos where
  line : Nat
  character : Nat
deriving DecidableEq, Repr

/-- `lsp::Range` (`start` / `end`; the `end` field is named `endPos`). -/
structure Range where
  start : Pos
  endPos : Pos
deriving DecidableEq, Repr

/-- `lsp::TextDocumentContentChangeEvent`. -/
structure ContentChange where
  range : Option Range
  range_length : Option Nat
  text : List Char
deriving DecidableEq, Repr

/-- `lsp::VersionedTextDocumentIdentifier`. -/
structure VersionedTextDocumentIdentifier where
  uri : String
  version : Option Int
deriving DecidableEq, Repr

/-- `lsp::DidChangeTextDocumentParams`. -/
structure DidChangeTextDocumentParams where
  text_document : VersionedTextDocumentIdentifier
  content_changes : List ContentChange
deriving DecidableEq, Repr

/-- `lsp::TextDocumentSyncKind`. -/
inductive TextDocumentSyncKind where
  | None
  | Incremental
  | Full
deriving DecidableEq, Repr

/-- `SyncData` from `src/lspc/tracking_file.rs`; the rope of the `Full`
variant is its character list. -/
inductive SyncData where
  | Incremental (changes : DidChangeTextDocumentParams)
  | Full (content : List Char)
  | None
deriving DecidableEq, Repr

/-- `TrackingFile` from `src/lspc/tracking_file.rs`.  `scheduled_sync_at`
holds a `Nat` timestamp standing for the `Instant`. -/
structure TrackingFile where
  handler_id : Nat
  sent_did_open : Bool
  scheduled_sync_at : Option Nat
  version : Int
  uri : String
  sync_data : SyncData
deriving DecidableEq, Repr

namespace TrackingFile

/-- `TrackingFile::new`. -/
def new (handler_id : Nat) (uri : String) (sync_kind : TextDocumentSyncKind) :
    TrackingFile :=
  let sync_data :=
    match sync_kind with
    | TextDocumentSyncKind.None => SyncData.None
    | TextDocumentSyncKind.Incremental =>
        SyncData.Incremental
          { text_document := { uri := uri, version := Option.none }
            content_changes := [] }
    | TextDocumentSyncKind.Full => SyncData.Full []
  { handler_id := handler_id
    sent_did_open := false
    scheduled_sync_at := Option.none
    version := 0
    uri := uri
    sync_data := sync_data }

/-- `Rope::line_to_char`: character index of the first character of line
`l` (counting a line break as ending its line). -/
def lineToChar : List Char → Nat → Nat
  | _, 0 => 0
  | [], _ + 1 => 0
  | c :: rest, Nat.succ l =>
      if c = '\n' then 1 + lineToChar rest l else 1 + lineToChar rest (Nat.succ l)

/-- The queue update of the `Incremental` arm of `track_change`:
`iter_mut().last()` / replace-in-place / `push`. -/
def pushOrReplace (q : List ContentChange) (c : ContentChange) :
    List ContentChange :=
  match q.getLast? with
  | Option.some last =>
      if last.range = c.range then q.dropLast ++ [c] else q ++ [c]
  | Option.none => [c]

/-- `TrackingFile::track_change`. -/
def track_change (tf : TrackingFile) (version : Int) (content_change : ContentChange) :
    TrackingFile :=
  let tf := { tf with version := version }
  match tf.sync_data with
  | SyncData.Incremental changes =>
      if content_change.range = Option.none then tf
      else
        let new_changes :=
          { changes with content_changes :=
              pushOrReplace changes.content_changes content_change }
        { tf with sync_data := SyncData.Incremental new_changes }
  | SyncData.Full content =>
      match content_change.range with
      | Option.none => { tf with sync_data := SyncData.Full content_change.text }
      | Option.some r =>
          let start_char := lineToChar content r.start.line
          let end_char := lineToChar content r.endPos.line
          let new_content :=
            content.take start_char ++ content_change.text ++ content.drop end_char
          { tf with sync_data := SyncData.Full new_content }
  | SyncData.None => tf

/-- `TrackingFile::fetch_pending_changes`; returns the optional params
together with the updated file. -/
def fetch_pending_changes (tf : TrackingFile) :
    Option DidChangeTextDocumentParams × TrackingFile :=
  let sync_content : DidChangeTextDocumentParams :=
    { text_document := { uri := tf.uri, version := Option.some tf.version }
      content_changes := [] }
  let tf := { tf with scheduled_sync_at := Option.none }
  match tf.sync_data with
  | SyncData.Incremental cur_sync_content =>
      -- `mem::swap(cur_sync_content, &mut sync_content)`
      let swapped_out := cur_sync_content
      let tf := { tf with sync_data := SyncData.Incremental sync_content }
      if swapped_out.content_changes.isEmpty then (Option.none, tf)
      else (Option.some swapped_out, tf)
  | SyncData.Full content =>
      let full_event : ContentChange :=
        { range := Option.none, range_length := Option.none, text := content }
      (Option.some { sync_content with content_changes := [full_event] }, tf)
  | SyncData.None => (Option.none, tf)

/-- `TrackingFile::delay_sync_in`; `now` stands for `Instant::now()`. -/
def delay_sync_in (tf : TrackingFile) (now : Nat) (duration : Nat) : TrackingFile :=
  match tf.scheduled_sync_at with
  | Option.none => { tf with scheduled_sync_at := Option.some (now + duration) }
  | Option.some _ => tf

end TrackingFile

/-- `SYNC_DELAY_MS` from `src/lspc.rs`. -/
def SYNC_DELAY_MS : Nat := 500

/-- The slice of `LangServerHandler` the broker's document events use:
its id and its `lang_id`. -/
structure LangServerHandler where
  id : Nat
  lang_id : String
deriving DecidableEq, Repr

/-- A notification the broker hands to a language-server handler
(`lsp_notify`); the first argument is the receiving handler's id. -/
inductive Note where
  | didOpen (handler_id : Nat) (uri : String) (language_id : String)
      (version : Int) (text : List Char)
  | didChange (handler_id : Nat) (params : DidChangeTextDocumentParams)
  | didClose (handler_id : Nat) (uri : String)
deriving DecidableEq, Repr

/-- `MainLoopError::IgnoredMessage`. -/
inductive MainLoopError where
  | IgnoredMessage
deriving DecidableEq, Repr

instance {ε α : Type} [DecidableEq ε] [DecidableEq α] :
    DecidableEq (Except ε α)
  | Except.ok x, Except.ok y => decidable_of_iff (x = y) (by simp)
  | Except.error x, Except.error y => decidable_of_iff (x = y) (by simp)
  | Except.ok _, Except.error _ => isFalse (by simp)
  | Except.error _, Except.ok _ => isFalse (by simp)

/-- The broker state `Lspc`: its handlers and its `tracking_files` map,
embedded as an association list with unique keys. -/
structure Lspc where
  lsp_handlers : List LangServerHandler
  tracking_files : List (String × TrackingFile)
deriving DecidableEq, Repr

namespace Lspc

/-- `tracking_files.get_mut(uri)`. -/
def lookupTracking (st : Lspc) (uri : String) : Option TrackingFile :=
  st.tracking_files.lookup uri

/-- Overwrite the entry at `uri` (the map update done through the
`&mut TrackingFile` borrow). -/
def updateTracking (st : Lspc) (uri : String) (tf : TrackingFile) : Lspc :=
  { st with tracking_files :=
      st.tracking_files.map (fun p => if p.1 = uri then (p.1, tf) else p) }

/-- `lsp_handlers.iter_mut().find(|handler| handler.id == tracking_file.handler_id)`. -/
def findHandler (st : Lspc) (handler_id : Nat) : Option LangServerHandler :=
  st.lsp_handlers.find? (fun h => h.id = handler_id)

/-- `handler_for_file`: tracking file then its handler, or `None`. -/
def handler_for_file (st : Lspc) (uri : String) :
    Option (LangServerHandler × TrackingFile) :=
  match st.lookupTracking uri with
  | Option.none => Option.none
  | Option.some tf =>
      match st.findHandler tf.handler_id with
      | Option.none => Option.none
      | Option.some h => Option.some (h, tf)

/-- The per-file effect of the `Event::DidChange` arm of
`handle_editor_event`: `track_change`, then either the first `didOpen`
(flag not yet set) or `delay_sync_in`. -/
def didChangeFile (now : Nat) (h : LangServerHandler) (uri : String)
    (version : Int) (content_change : ContentChange) (tf : TrackingFile) :
    TrackingFile × List Note :=
  let tf := tf.track_change version content_change
  if tf.sent_did_open = false then
    ({ tf with sent_did_open := true },
     [Note.didOpen h.id uri h.lang_id version content_change.text])
  else
    (tf.delay_sync_in now SYNC_DELAY_MS, [])

/-- The `Event::DidChange` arm of `Lspc::handle_editor_event`;
`now` stands for `Instant::now()` inside `delay_sync_in`.  Returns the
new broker state and the notifications sent to the owning handler. -/
def handle_did_change (st : Lspc) (now : Nat) (uri : String) (version : Int)
    (content_change : ContentChange) :
    Except MainLoopError (Lspc × List Note) :=
  match st.handler_for_file uri with
  | Option.none => Except.error MainLoopError.IgnoredMessage
  | Option.some (h, tf) =>
      let r := didChangeFile now h uri version content_change tf
      Except.ok (st.updateTracking uri r.1, r.2)

/-- The per-file effect of the `Event::DidClose` arm: flush pending
changes, then `didClose`.  The tracking entry is left in place (the
source has no `tracking_files.remove`). -/
def didCloseFile (h : LangServerHandler) (uri : String) (tf : TrackingFile) :
    TrackingFile × List Note :=
  let r := tf.fetch_pending_changes
  let flush : List Note :=
    match r.1 with
    | Option.some params => [Note.didChange h.id params]
    | Option.none => []
  (r.2, flush ++ [Note.didClose h.id uri])

/-- The `Event::DidClose` arm of `Lspc::handle_editor_event`. -/
def handle_did_close (st : Lspc) (uri : String) :
    Except MainLoopError (Lspc × List Note) :=
  match st.handler_for_file uri with
  | Option.none => Except.error MainLoopError.IgnoredMessage
  | Option.some (h, tf) =>
      let r := didCloseFile h uri tf
      Except.ok (st.updateTracking uri r.1, r.2)

end Lspc

/-- `lsp::TextEdit`. -/
structure TextEdit where
  range : Range
  new_text : List Char
deriving DecidableEq, Repr

/-- The sort key order of `sort_by_key(|i| (i.range.start.line, i.range.start.character))`:
lexicographic on `(line, character)`. -/
def keyLe (a b : TextEdit) : Prop :=
  a.range.start.line < b.range.start.line ∨
    (a.range.start.line = b.range.start.line ∧
      a.range.start.character ≤ b.range.start.character)

instance : DecidableRel keyLe := by
  intro a b; unfold keyLe; exact inferInstance

instance : IsTotal TextEdit keyLe :=
  ⟨by intro a b; unfold keyLe; omega⟩

instance : IsTrans TextEdit keyLe :=
  ⟨by intro a b c; unfold keyLe; omega⟩

/-- The stable `sort_by_key` of `apply_edits`, as stable insertion
sort on the `(line, character)` key order. -/
def sortEdits (edits : List TextEdit) : List TextEdit :=
  List.insertionSort keyLe edits

/-- `lines.join("\n")` over character lists. -/
def joinLines (lines : List (List Char)) : List Char :=
  List.intercalate ['\n'] lines

/-- `to_document_offset` from `src/neovim.rs`:
`lines[..pos.line].iter().map(String::len).fold(0, |acc, cur| acc + cur + 1) + pos.character`. -/
def to_document_offset (lines : List (List Char)) (pos : Pos) : Nat :=
  ((lines.take pos.line).map List.length).foldl (fun acc cur => acc + cur + 1) 0
    + pos.character

/-- One iteration of the `for edit in sorted_edits.iter().rev()` loop of
`apply_edits`; the state is `(editted_content, last_modified_offset)`.
`last_modified_offset = start_offset` is executed on both branches, as in
the source. -/
def applyStep (lines : List (List Char)) (st : List Char × Nat) (edit : TextEdit) :
    List Char × Nat :=
  let start_offset := to_document_offset lines edit.range.start
  let end_offset := to_document_offset lines edit.range.endPos
  if end_offset ≤ st.2 then
    (st.1.take start_offset ++ edit.new_text ++ st.1.drop end_offset, start_offset)
  else
    (st.1, start_offset)

/-- `apply_edits` from `src/neovim.rs`. -/
def apply_edits (lines : List (List Char)) (edits : List TextEdit) : List Char :=
  let editted_content := joinLines lines
  let sorted_edits := sortEdits edits
  (sorted_edits.reverse.foldl (applyStep lines)
    (editted_content, editted_content.length)).1

/-- `to_document_offset` with the panic made explicit: the slice
`lines[..pos.line]` is out of bounds when `pos.line > lines.len()`. -/
def toDocumentOffsetChecked (lines : List (List Char)) (pos : Pos) : Option Nat :=
  if pos.line ≤ lines.length then Option.some (to_document_offset lines pos)
  else Option.none

/-- One loop iteration with every slice guarded: `editted_content[..start]`
and `editted_content[end..]` are out of bounds when the offset exceeds the
current buffer length. -/
def applyStepChecked (lines : List (List Char)) (st : List Char × Nat)
    (edit : TextEdit) : Option (List Char × Nat) :=
  match toDocumentOffsetChecked lines edit.range.start,
        toDocumentOffsetChecked lines edit.range.endPos with
  | Option.some start_offset, Option.some end_offset =>
      if end_offset ≤ st.2 then
        if start_offset ≤ st.1.length ∧ end_offset ≤ st.1.length then
          Option.some
            (st.1.take start_offset ++ edit.new_text ++ st.1.drop end_offset,
             start_offset)
        else Option.none
      else Option.some (st.1, start_offset)
  | _, _ => Option.none

/-- `apply_edits` with every index and slice guarded; `none` marks the
panic branch. -/
def applyEditsChecked (lines : List (List Char)) (edits : List TextEdit) :
    Option (List Char) :=
  let editted_content := joinLines lines
  let sorted_edits := sortEdits edits
  ((sorted_edits.reverse.foldlM (applyStepChecked lines)
    (editted_content, editted_content.length)).map Prod.fst)

/-- The pending queue of a file in the `Incremental` state. -/
def incQueue (tf : TrackingFile) : Option (List ContentChange) :=
  match tf.sync_data with
  | SyncData.Incremental ps => Option.some ps.content_changes
  | _ => Option.none

/-- The sequence of states a tracking file passes through under a
sequence of `track_change` calls (each list entry is a `(version,
change)` pair); the head is the initial state. -/
def observedStates (tf : TrackingFile) (calls : List (Int × ContentChange)) :
    List TrackingFile :=
  List.scanl (fun t p => t.track_change p.1 p.2) tf calls

section TrackChangeLemmas

/-- `track_change` only touches `version` and `sync_data`. -/
theorem track_change_fields (tf : TrackingFile) (v : Int) (c : ContentChange) :
    (tf.track_change v c).sent_did_open = tf.sent_did_open ∧
    (tf.track_change v c).scheduled_sync_at = tf.scheduled_sync_at ∧
    (tf.track_change v c).handler_id = tf.handler_id ∧
    (tf.track_change v c).uri = tf.uri ∧
    (tf.track_change v c).version = v := by
  unfold TrackingFile.track_change
  cases h : tf.sync_data <;> simp [h]
  · split <;> simp
  · cases hc : c.range <;> simp [hc]

end TrackChangeLemmas

/-- A tracking file fresh from `TrackingFile::new` in the incremental
state, used as a concrete instance. -/
def tfDemoInc : TrackingFile :=
  TrackingFile.new 1 "file:///w" TextDocumentSyncKind.Incremental

/-- The same file with a sync already scheduled. -/
def tfDemoSched : TrackingFile :=
  { tfDemoInc with scheduled_sync_at := Option.some 700 }

/-- A concrete ranged change event. -/
def cDemo : ContentChange :=
  { range := Option.some
      { start := { line := 0, character := 0 }
        endPos := { line := 0, character := 0 } }
    range_length := Option.none
    text := "x".data }

/-- C3: in the Incremental state, `track_change` ignores a rangeless
change; otherwise it replaces the last queued entry in place when that
entry has the same range as the new change, and appends the change
otherwise. -/
theorem track_change_incremental_spec (tf : TrackingFile)
    (ps : DidChangeTextDocumentParams) (v : Int) (c : ContentChange)
    (hsync : tf.sync_data = SyncData.Incremental ps) :
    (c.range = Option.none →
      incQueue (tf.track_change v c) = Option.some ps.content_changes) ∧
    (c.range ≠ Option.none →
      (ps.content_changes = [] →
        incQueue (tf.track_change v c) = Option.some [c]) ∧
      (∀ last, ps.content_changes.getLast? = Option.some last →
        incQueue (tf.track_change v c) =
          Option.some (if last.range = c.range
            then ps.content_changes.dropLast ++ [c]
            else ps.content_changes ++ [c]))) := by
  constructor
  · intro hr
    unfold TrackingFile.track_change
    simp [hsync, hr, incQueue]
  · intro hr
    constructor
    · intro hq
      unfold TrackingFile.track_change TrackingFile.pushOrReplace
      simp [hsync, hr, hq, incQueue]
    · intro last hlast
      unfold TrackingFile.track_change TrackingFile.pushOrReplace
      simp [hsync, hr, incQueue, hlast]

/-- Concrete instance of `track_change_incremental_spec`: an appended
change on the empty queue, and a rangeless change ignored. -/
theorem track_change_incremental_spec_witness :
    incQueue (tfDemoInc.track_change 1 cDemo) = Option.some [cDemo] ∧
    incQueue (tfDemoInc.track_change 1
      { cDemo with range := Option.none }) = Option.some [] := by
  have h1 := track_change_incremental_spec tfDemoInc
    { text_document := { uri := "file:///w", version := Option.none }
      content_changes := [] } 1 cDemo rfl
  have h2 := track_change_incremental_spec tfDemoInc
    { text_document := { uri := "file:///w", version := Option.none }
      content_changes := [] } 1 { cDemo with range := Option.none } rfl
  exact ⟨(h1.2 (by simp [cDemo])).1 rfl, h2.1 rfl⟩

/-- C8: `delay_sync_in` schedules `now + duration` when no sync is
scheduled and is the identity otherwise; no other field changes. -/
theorem delay_sync_in_spec (tf : TrackingFile) (now d : Nat) :
    (tf.delay_sync_in now d).handler_id = tf.handler_id ∧
    (tf.delay_sync_in now d).sent_did_open = tf.sent_did_open ∧
    (tf.delay_sync_in now d).version = tf.version ∧
    (tf.delay_sync_in now d).uri = tf.uri ∧
    (tf.delay_sync_in now d).sync_data = tf.sync_data ∧
    (tf.scheduled_sync_at = Option.none →
      (tf.delay_sync_in now d).scheduled_sync_at = Option.some (now + d)) ∧
    (∀ t, tf.scheduled_sync_at = Option.some t →
      tf.delay_sync_in now d = tf) := by
  unfold TrackingFile.delay_sync_in
  cases h : tf.scheduled_sync_at <;> simp [h]

/-- Concrete instance of `delay_sync_in_spec` on both branches. -/
theorem delay_sync_in_spec_witness :
    (tfDemoInc.delay_sync_in 10 5).scheduled_sync_at = Option.some 15 ∧
    tfDemoSched.delay_sync_in 10 5 = tfDemoSched := by
  have h1 := delay_sync_in_spec tfDemoInc 10 5
  have h2 := delay_sync_in_spec tfDemoSched 10 5
  exact ⟨h1.2.2.2.2.2.1 rfl, h2.2.2.2.2.2.2 700 rfl⟩

/-- A tracking file in the full state with shadow text `"ab"` and
version 7. -/
def tfDemoFull : TrackingFile :=
  { TrackingFile.new 2 "file:///f" TextDocumentSyncKind.Full with
      version := 7, sync_data := SyncData.Full "ab".data }

/-- What `fetch_pending_changes` actually does: it clears
`scheduled_sync_at`, returns `None` exactly for the `None` state and the
`Incremental` state with an empty queue; in the `Incremental` state it
returns the stored params wholesale (the `mem::swap` swaps the whole
struct, so the outgoing `text_document` is the stored, stale one) while
an empty params with the current version replaces it; in the `Full`
state it returns the current version with one rangeless event carrying
the whole shadow. -/
theorem fetch_pending_changes_behaviour (tf : TrackingFile) :
    tf.fetch_pending_changes.2.scheduled_sync_at = Option.none ∧
    (tf.fetch_pending_changes.1 = Option.none ↔
      (tf.sync_data = SyncData.None ∨
        ∃ ps, tf.sync_data = SyncData.Incremental ps ∧
          ps.content_changes = [])) ∧
    (∀ ps, tf.sync_data = SyncData.Incremental ps → ps.content_changes ≠ [] →
      tf.fetch_pending_changes.1 = Option.some ps ∧
      tf.fetch_pending_changes.2.sync_data = SyncData.Incremental
        { text_document := { uri := tf.uri, version := Option.some tf.version }
          content_changes := [] }) ∧
    (∀ content, tf.sync_data = SyncData.Full content →
      tf.fetch_pending_changes.1 = Option.some
        { text_document := { uri := tf.uri, version := Option.some tf.version }
          content_changes :=
            [{ range := Option.none, range_length := Option.none
               text := content }] }) := by
  unfold TrackingFile.fetch_pending_changes
  cases h : tf.sync_data with
  | Incremental ps =>
      by_cases hq : ps.content_changes = [] <;>
        simp [h, hq, incQueue, List.isEmpty_iff]
  | Full content => simp [h]
  | None => simp [h]

/-- An incremental tracking file at version 5 holding one queued change,
before any fetch. -/
def tfStale : TrackingFile :=
  { tfDemoInc with
      version := 5
      sync_data := SyncData.Incremental
        { text_document := { uri := "file:///w", version := Option.none }
          content_changes := [cDemo] } }

/-- C2 fails on the version: on an incremental file at version 5 with a
queued change, the returned `didChange` params carry the queued change
and the file's uri, but `text_document.version` is `None`, not
`Some 5` — the swap sends the stored, stale `text_document` out. -/
theorem fetch_pending_changes_stale_version :
    tfStale.fetch_pending_changes.1 = Option.some
      { text_document := { uri := "file:///w", version := Option.none }
        content_changes := [cDemo] } ∧
    tfStale.version = 5 ∧
    tfStale.fetch_pending_changes.2.scheduled_sync_at = Option.none := by
  refine ⟨?_, rfl, ?_⟩ <;>
    simp [tfStale, tfDemoInc, TrackingFile.new, TrackingFile.fetch_pending_changes]

/-- C9 fails as stated: `track_change` overwrites `version` with the
argument, so a smaller version argument makes the field decrease. -/
theorem version_decreases_on_smaller_input :
    (tfDemoInc.track_change 5 cDemo).version = 5 ∧
    ((tfDemoInc.track_change 5 cDemo).track_change 3 cDemo).version = 3 ∧
    ¬((tfDemoInc.track_change 5 cDemo).version ≤
      ((tfDemoInc.track_change 5 cDemo).track_change 3 cDemo).version) := by
  decide

/-- The versions along a trace of `track_change` calls are the initial
version followed by the version arguments. -/
theorem observedStates_versions (tf : TrackingFile)
    (calls : List (Int × ContentChange)) :
    (observedStates tf calls).map TrackingFile.version =
      tf.version :: calls.map Prod.fst := by
  induction calls generalizing tf with
  | nil => simp [observedStates]
  | cons p rest ih =>
      have h := ih (tf.track_change p.1 p.2)
      simp only [observedStates, List.scanl, List.map_cons] at h ⊢
      rw [h, (track_change_fields tf p.1 p.2).2.2.2.2]

/-- C9 amended: when the version arguments of a `track_change` sequence
are non-decreasing and start no lower than the file's current version,
the version field is non-decreasing across all observed states. -/
theorem version_monotone_of_monotone_inputs (tf : TrackingFile)
    (calls : List (Int × ContentChange))
    (h : List.Chain' (· ≤ ·) (tf.version :: calls.map Prod.fst)) :
    List.Chain' (· ≤ ·)
      ((observedStates tf calls).map TrackingFile.version) := by
  rw [observedStates_versions]
  exact h

/-- Concrete instance of `version_monotone_of_monotone_inputs`. -/
theorem version_monotone_of_monotone_inputs_witness :
    List.Chain' (· ≤ ·)
      ((observedStates tfDemoInc [(1, cDemo), (2, cDemo)]).map
        TrackingFile.version) :=
  version_monotone_of_monotone_inputs tfDemoInc [(1, cDemo), (2, cDemo)]
    (by simp [tfDemoInc, TrackingFile.new, List.chain'_cons])

/-- The input lines of the formatting scenario S4. -/
def demo6lines : List (List Char) :=
  ["fn   a() \x7b".data, "  print!(\"hello\");".data, "\x7d".data]

/-- The two edits of scenario S4. -/
def demo6edits : List TextEdit :=
  [ { range := { start := { line := 0, character := 3 }
                 endPos := { line := 0, character := 5 } }
      new_text := [] },
    { range := { start := { line := 1, character := 0 }
                 endPos := { line := 1, character := 0 } }
      new_text := "  ".data } ]

/-- C6: `apply_edits` on the S4 input produces the expected text
bit-exactly. -/
theorem apply_edits_sample :
    apply_edits demo6lines demo6edits =
      "fn a() \x7b\n    print!(\"hello\");\n\x7d".data := by
  decide

/-- One line `"abcd"`. -/
def c5lines : List (List Char) := ["abcd".data]

/-- An edit `(0,0)-(0,3) → "X"` used to exercise the skip branch. -/
def c5skipEdit : TextEdit :=
  { range := { start := { line := 0, character := 0 }
               endPos := { line := 0, character := 3 } }
    new_text := "X".data }

/-- An edit `(0,2)-(0,4) → "Y"` used to exercise the splice branch. -/
def c5spliceEdit : TextEdit :=
  { range := { start := { line := 0, character := 2 }
               endPos := { line := 0, character := 4 } }
    new_text := "Y".data }

/-- C5 fails as stated: an edit whose end offset (3) exceeds
`last_modified_offset` (2) is skipped, yet `last_modified_offset` is
still set to the edit's start offset (0) instead of staying 2 — the
assignment sits outside the branch. -/
theorem apply_edits_skip_updates_offset :
    to_document_offset c5lines c5skipEdit.range.endPos = 3 ∧
    ¬(to_document_offset c5lines c5skipEdit.range.endPos ≤ 2) ∧
    applyStep c5lines ("abY".data, 2) c5skipEdit = ("abY".data, 0) ∧
    (applyStep c5lines ("abY".data, 2) c5skipEdit).2 ≠ 2 := by
  decide

/-- C5 amended: walking the sorted edits last to first, an edit is
spliced exactly when its end offset is at most `last_modified_offset`;
in both branches `last_modified_offset` becomes the edit's start offset,
and a skipped edit leaves the buffer unchanged. -/
theorem apply_edits_walk_spec (lines : List (List Char))
    (st : List Char × Nat) (e : TextEdit) (edits : List TextEdit) :
    (to_document_offset lines e.range.endPos ≤ st.2 →
      applyStep lines st e =
        (st.1.take (to_document_offset lines e.range.start) ++ e.new_text ++
          st.1.drop (to_document_offset lines e.range.endPos),
         to_document_offset lines e.range.start)) ∧
    (st.2 < to_document_offset lines e.range.endPos →
      applyStep lines st e = (st.1, to_document_offset lines e.range.start)) ∧
    apply_edits lines edits =
      ((sortEdits edits).reverse.foldl (applyStep lines)
        (joinLines lines, (joinLines lines).length)).1 := by
  refine ⟨fun h => ?_, fun h => ?_, rfl⟩
  · unfold applyStep
    rw [if_pos h]
  · unfold applyStep
    rw [if_neg (by omega)]

/-- Concrete instances of both branches of `apply_edits_walk_spec`. -/
theorem apply_edits_walk_spec_witness :
    applyStep c5lines ("abcd".data, 4) c5spliceEdit = ("abY".data, 2) ∧
    applyStep c5lines ("abY".data, 2) c5skipEdit = ("abY".data, 0) := by
  constructor
  · have h := (apply_edits_walk_spec c5lines ("abcd".data, 4) c5spliceEdit []).1
      (by decide)
    rw [h]; decide
  · have h := (apply_edits_walk_spec c5lines ("abY".data, 2) c5skipEdit []).2.1
      (by decide)
    rw [h]; decide

/-- The tracked file of the `DidClose` scenario: incremental, opened,
one queued change, a sync scheduled. -/
def tfC1 : TrackingFile :=
  { tfStale with sent_did_open := true, scheduled_sync_at := Option.some 700 }

/-- A broker owning one handler (id 1) and tracking `file:///w`. -/
def stC1 : Lspc :=
  { lsp_handlers := [{ id := 1, lang_id := "rust" }]
    tracking_files := [("file:///w", tfC1)] }

/-- The tracked file after the `DidClose` flush. -/
def tfC1after : TrackingFile :=
  { tfC1 with
      scheduled_sync_at := Option.none
      sync_data := SyncData.Incremental
        { text_document := { uri := "file:///w", version := Option.some 5 }
          content_changes := [] } }

/-- C1: handling `DidClose` flushes the pending changes as a `didChange`
to the owning handler and then sends `didClose` — but the uri is still a
key of `tracking_files` afterwards: the source never removes the
entry. -/
theorem didclose_keeps_tracking_entry :
    stC1.handle_did_close "file:///w" = Except.ok
      ({ stC1 with tracking_files := [("file:///w", tfC1after)] },
       [Note.didChange 1
          { text_document := { uri := "file:///w", version := Option.none }
            content_changes := [cDemo] },
        Note.didClose 1 "file:///w"]) ∧
    ({ stC1 with tracking_files := [("file:///w", tfC1after)] } :
        Lspc).lookupTracking "file:///w" = Option.some tfC1after := by
  decide

/-- Updating the tracked file at `uri` rewrites exactly the looked-up
value. -/
theorem lookup_update_eq (l : List (String × TrackingFile)) (uri : String)
    (tf' : TrackingFile) :
    (l.map (fun p => if p.1 = uri then (p.1, tf') else p)).lookup uri =
      (l.lookup uri).map (fun _ => tf') := by
  induction l with
  | nil => rfl
  | cons p rest ih =>
      obtain ⟨k, v⟩ := p
      by_cases hp : k = uri
      · subst hp
        simp only [List.map_cons]
        rw [if_pos trivial]
        simp [List.lookup, ih]
      · have hne : (uri == k) = false := by
          simp only [beq_eq_false_iff_ne, ne_eq]
          exact fun hh => hp hh.symm
        simp only [List.map_cons]
        rw [if_neg hp]
        simp [List.lookup, hne, ih]

/-- Unfolding `handler_for_file`: a hit yields the tracked file at the
uri and the handler found by its id. -/
theorem handler_for_file_eq {st : Lspc} {uri : String}
    {h : LangServerHandler} {tf : TrackingFile}
    (hlk : st.handler_for_file uri = Option.some (h, tf)) :
    st.lookupTracking uri = Option.some tf ∧
    st.findHandler tf.handler_id = Option.some h := by
  unfold Lspc.handler_for_file at hlk
  cases e : st.lookupTracking uri with
  | none => rw [e] at hlk; cases hlk
  | some tf0 =>
      rw [e] at hlk
      dsimp only at hlk
      cases e2 : st.findHandler tf0.handler_id with
      | none => rw [e2] at hlk; cases hlk
      | some h0 =>
          rw [e2] at hlk
          dsimp only at hlk
          simp only [Option.some.injEq, Prod.mk.injEq] at hlk
          obtain ⟨hh, ht⟩ := hlk
          subst hh; subst ht
          exact ⟨rfl, e2⟩

/-- `Rope::len_lines`: the number of line breaks plus one. -/
def lenLines (content : List Char) : Nat := content.count '\n' + 1

/-- `Rope::line_to_char` with its bounds check explicit: ropey panics
when the line index exceeds `len_lines`; `none` marks that panic.  On
`some` the value is `TrackingFile.lineToChar`, which computes the
in-range cases. -/
def lineToCharChecked (content : List Char) (l : Nat) : Option Nat :=
  if l ≤ lenLines content then
    Option.some (TrackingFile.lineToChar content l)
  else Option.none

/-- `TrackingFile::track_change` with the panics of the `Full` ranged
arm explicit: `line_to_char` panics on an out-of-range line index, and
`remove(start_char..end_char)` panics on an inverted range.  `none`
marks a panic; on `some` the result agrees with `track_change`
(`track_change_checked_sound`). -/
def TrackingFile.track_change_checked (tf : TrackingFile) (version : Int)
    (content_change : ContentChange) : Option TrackingFile :=
  let tf := { tf with version := version }
  match tf.sync_data with
  | SyncData.Incremental changes =>
      if content_change.range = Option.none then Option.some tf
      else
        let new_queue :=
          TrackingFile.pushOrReplace changes.content_changes content_change
        let new_changes := { changes with content_changes := new_queue }
        Option.some { tf with sync_data := SyncData.Incremental new_changes }
  | SyncData.Full content =>
      match content_change.range with
      | Option.none =>
          Option.some
            { tf with sync_data := SyncData.Full content_change.text }
      | Option.some r =>
          match lineToCharChecked content r.start.line with
          | Option.none => Option.none
          | Option.some start_char =>
              match lineToCharChecked content r.endPos.line with
              | Option.none => Option.none
              | Option.some end_char =>
                  if start_char ≤ end_char then
                    let new_content :=
                      content.take start_char ++ content_change.text ++
                        content.drop end_char
                    Option.some
                      { tf with sync_data := SyncData.Full new_content }
                  else Option.none
  | SyncData.None => Option.some tf

/-- `didChangeFile` with the `track_change` panic explicit: when
`track_change` panics, the handler arm is never reached and nothing is
sent. -/
def Lspc.didChangeFileChecked (now : Nat) (h : LangServerHandler)
    (uri : String) (version : Int) (content_change : ContentChange)
    (tf : TrackingFile) : Option (TrackingFile × List Note) :=
  match tf.track_change_checked version content_change with
  | Option.none => Option.none
  | Option.some tf1 =>
      if tf1.sent_did_open = false then
        Option.some ({ tf1 with sent_did_open := true },
          [Note.didOpen h.id uri h.lang_id version content_change.text])
      else
        Option.some (tf1.delay_sync_in now SYNC_DELAY_MS, [])

/-- The `Event::DidChange` arm of `handle_editor_event` with panics
explicit; `none` marks a panic escaping the handler. -/
def Lspc.handle_did_change_checked (st : Lspc) (now : Nat) (uri : String)
    (version : Int) (content_change : ContentChange) :
    Option (Except MainLoopError (Lspc × List Note)) :=
  match st.handler_for_file uri with
  | Option.none => Option.some (Except.error MainLoopError.IgnoredMessage)
  | Option.some (h, tf) =>
      match Lspc.didChangeFileChecked now h uri version content_change tf with
      | Option.none => Option.none
      | Option.some r =>
          Option.some (Except.ok (st.updateTracking uri r.1, r.2))

theorem lineToCharChecked_sound (content : List Char) (l k : Nat)
    (h : lineToCharChecked content l = Option.some k) :
    k = TrackingFile.lineToChar content l := by
  unfold lineToCharChecked at h
  split at h
  · simp only [Option.some.injEq] at h
    exact h.symm
  · cases h

/-- The checked `track_change` refines the total one: whenever it does
not panic, both agree. -/
theorem track_change_checked_sound (tf : TrackingFile) (v : Int)
    (c : ContentChange) (tf1 : TrackingFile)
    (h : tf.track_change_checked v c = Option.some tf1) :
    tf.track_change v c = tf1 := by
  unfold TrackingFile.track_change_checked at h
  unfold TrackingFile.track_change
  cases hs : tf.sync_data with
  | Incremental changes =>
      simp only [hs] at h ⊢
      by_cases hr : c.range = Option.none <;>
        simp only [hr, if_pos, if_neg, if_true, if_false] <;>
        simp only [hr, if_pos, if_neg, if_true, if_false,
          Option.some.injEq] at h <;>
        exact h
  | Full content =>
      simp only [hs] at h ⊢
      cases hr : c.range with
      | none =>
          simp only [hr, Option.some.injEq] at h ⊢
          exact h
      | some r =>
          simp only [hr] at h ⊢
          cases e1 : lineToCharChecked content r.start.line with
          | none => rw [e1] at h; cases h
          | some s =>
              rw [e1] at h
              cases e2 : lineToCharChecked content r.endPos.line with
              | none => rw [e2] at h; cases h
              | some e =>
                  rw [e2] at h
                  rw [lineToCharChecked_sound content r.start.line s e1,
                    lineToCharChecked_sound content r.endPos.line e e2] at h
                  dsimp only at h
                  by_cases hle : TrackingFile.lineToChar content r.start.line ≤
                      TrackingFile.lineToChar content r.endPos.line
                  · rw [if_pos hle] at h
                    simp only [Option.some.injEq] at h
                    exact h
                  · rw [if_neg hle] at h
                    cases h
  | None =>
      simp only [hs, Option.some.injEq] at h ⊢
      exact h

theorem lineToChar_nil (l : Nat) : TrackingFile.lineToChar [] l = 0 := by
  cases l <;> rfl

/-- A file fresh from `TrackingFile::new` on a full-sync handler: empty
shadow, `didOpen` not yet sent. -/
def tfFullUnsent : TrackingFile :=
  TrackingFile.new 1 "file:///f" TextDocumentSyncKind.Full

/-- A broker tracking `file:///f` through handler 1 in the full
state. -/
def stPanic : Lspc :=
  { lsp_handlers := [{ id := 1, lang_id := "rust" }]
    tracking_files := [("file:///f", tfFullUnsent)] }

/-- A ranged change whose end line (99) exceeds the shadow's line count
— the shape of the first neovim buffer-lines event, whose
`lastline = -1` is cast to a huge unsigned value. -/
def cPanic : ContentChange :=
  { range := Option.some
      { start := { line := 0, character := 0 }
        endPos := { line := 99, character := 0 } }
    range_length := Option.none
    text := "line1".data }

/-- C4 fails as stated: on a tracked full-state file with
`sent_did_open = false`, a ranged change whose end line exceeds the
shadow's line count makes `track_change` panic (`line_to_char` out of
bounds) before `lsp_notify` runs, so no `didOpen` is sent. -/
theorem did_change_panics_before_didopen :
    tfFullUnsent.sent_did_open = false ∧
    (stPanic.handler_for_file "file:///f").isSome = true ∧
    stPanic.handle_did_change_checked 0 "file:///f" 1 cPanic =
      Option.none := by
  decide

/-- C4 amended: when handling `DidChange` for a tracked file with
`sent_did_open = false` and `track_change` does not panic, the broker
emits exactly one notification — the `didOpen` to the owning handler
carrying the change event's text — sets `sent_did_open`, leaves
`scheduled_sync_at` untouched, and updates the version; for a freshly
opened full-state file (empty shadow) that text equals the full current
shadow text after the update, whether or not the change has a range. -/
theorem did_change_first_didopen_checked (st : Lspc) (now : Nat)
    (uri : String) (version : Int) (c : ContentChange)
    (h : LangServerHandler) (tf tf1 : TrackingFile)
    (hlk : st.handler_for_file uri = Option.some (h, tf))
    (hopen : tf.sent_did_open = false)
    (htc : tf.track_change_checked version c = Option.some tf1) :
    st.handle_did_change_checked now uri version c =
      Option.some (Except.ok
        (st.updateTracking uri { tf1 with sent_did_open := true },
         [Note.didOpen h.id uri h.lang_id version c.text])) ∧
    (st.updateTracking uri { tf1 with sent_did_open := true }).lookupTracking
        uri = Option.some { tf1 with sent_did_open := true } ∧
    tf1.scheduled_sync_at = tf.scheduled_sync_at ∧
    tf1.version = version ∧
    (∀ content, tf.sync_data = SyncData.Full content →
      c.range = Option.none → tf1.sync_data = SyncData.Full c.text) ∧
    (tf.sync_data = SyncData.Full [] →
      tf1.sync_data = SyncData.Full c.text) := by
  obtain ⟨hl, _⟩ := handler_for_file_eq hlk
  have htot : tf.track_change version c = tf1 :=
    track_change_checked_sound tf version c tf1 htc
  refine ⟨?_, ?_, ?_, ?_, ?_, ?_⟩
  · unfold Lspc.handle_did_change_checked
    rw [hlk]
    dsimp only [Lspc.didChangeFileChecked]
    rw [htc]
    dsimp only
    rw [← htot, (track_change_fields tf version c).1, hopen]
    simp
  · unfold Lspc.updateTracking Lspc.lookupTracking
    simp only [lookup_update_eq]
    rw [show Lspc.lookupTracking st uri = st.tracking_files.lookup uri from rfl]
      at hl
    rw [hl]
    rfl
  · rw [← htot]
    exact (track_change_fields tf version c).2.1
  · rw [← htot]
    exact (track_change_fields tf version c).2.2.2.2
  · intro content hfull hrange
    rw [← htot]
    unfold TrackingFile.track_change
    simp [hfull, hrange]
  · intro hfull
    unfold TrackingFile.track_change_checked at htc
    simp only [hfull] at htc
    cases hr : c.range with
    | none =>
        simp only [hr, Option.some.injEq] at htc
        rw [← htc]
    | some r =>
        simp only [hr] at htc
        cases e1 : lineToCharChecked [] r.start.line with
        | none => rw [e1] at htc; cases htc
        | some s =>
            rw [e1] at htc
            cases e2 : lineToCharChecked [] r.endPos.line with
            | none => rw [e2] at htc; cases htc
            | some e =>
                rw [e2] at htc
                rw [lineToCharChecked_sound [] r.start.line s e1,
                  lineToCharChecked_sound [] r.endPos.line e e2,
                  lineToChar_nil, lineToChar_nil] at htc
                simp only [le_refl, if_true, List.take_nil, List.drop_nil,
                  List.append_nil, List.nil_append, Option.some.injEq] at htc
                rw [← htc]

/-- A broker tracking `file:///w` through handler 1, the file not yet
opened on the server. -/
def stW : Lspc :=
  { lsp_handlers := [{ id := 1, lang_id := "rust" }]
    tracking_files := [("file:///w", tfStale)] }

/-- The tracked file after a non-panicking `track_change 9 cDemo` on
`tfStale`. -/
def tfW1 : TrackingFile :=
  { handler_id := 1, sent_did_open := false
    scheduled_sync_at := Option.none
    version := 9, uri := "file:///w"
    sync_data := SyncData.Incremental
      { text_document := { uri := "file:///w", version := Option.none }
        content_changes := [cDemo] } }

/-- Concrete instance of `did_change_first_didopen_checked`: the one
emitted notification is the `didOpen` carrying the change's text. -/
theorem did_change_first_didopen_checked_witness :
    stW.handle_did_change_checked 0 "file:///w" 9 cDemo =
      Option.some (Except.ok
        (stW.updateTracking "file:///w" { tfW1 with sent_did_open := true },
         [Note.didOpen 1 "file:///w" "rust" 9 cDemo.text])) := by
  have h := did_change_first_didopen_checked stW 0 "file:///w" 9 cDemo
    { id := 1, lang_id := "rust" } tfStale tfW1 (by decide) rfl (by decide)
  exact h.1

/-- The scheduled-iff-pending invariant of the spec, stated for the
`Incremental` state, whose pending changes are observable as the
queue. -/
def incInv (tf : TrackingFile) : Prop :=
  ∀ ps, tf.sync_data = SyncData.Incremental ps →
    (tf.scheduled_sync_at.isSome = true ↔ ps.content_changes ≠ [])

/-- A tracked file with sync state `None`, already opened. -/
def tfNone7 : TrackingFile :=
  { TrackingFile.new 1 "file:///n" TextDocumentSyncKind.None with
      sent_did_open := true }

/-- C7 fails as stated: a `DidChange` on a file in the `None` state
schedules a sync although the file can hold no unsent changes, and the
first `DidChange` on an incremental file queues a change without
scheduling any sync. -/
theorem sync_schedule_invariant_fails :
    ((Lspc.didChangeFile 100 { id := 1, lang_id := "rust" } "file:///n" 1
        cDemo tfNone7).1.scheduled_sync_at = Option.some 600) ∧
    ((Lspc.didChangeFile 100 { id := 1, lang_id := "rust" } "file:///n" 1
        cDemo tfNone7).1.sync_data = SyncData.None) ∧
    (incQueue (Lspc.didChangeFile 100 { id := 1, lang_id := "rust" }
        "file:///w" 1 cDemo tfDemoInc).1 = Option.some [cDemo]) ∧
    ((Lspc.didChangeFile 100 { id := 1, lang_id := "rust" } "file:///w" 1
        cDemo tfDemoInc).1.scheduled_sync_at = Option.none) := by
  decide

/-- `pushOrReplace` never empties the queue. -/
theorem pushOrReplace_ne_nil (q : List ContentChange) (c : ContentChange) :
    TrackingFile.pushOrReplace q c ≠ [] := by
  unfold TrackingFile.pushOrReplace
  cases hq : q.getLast? with
  | none => simp
  | some last =>
      simp only
      split <;> simp

/-- After a fetch on an incremental file, the stored params are the
fresh, empty ones stamped with the current version. -/
theorem fetch_result_sync_data_incremental (tf : TrackingFile)
    (ps0 : DidChangeTextDocumentParams)
    (h : tf.sync_data = SyncData.Incremental ps0) :
    tf.fetch_pending_changes.2.sync_data = SyncData.Incremental
      { text_document := { uri := tf.uri, version := Option.some tf.version }
        content_changes := [] } := by
  unfold TrackingFile.fetch_pending_changes
  simp only [h]
  split <;> rfl

/-- A fetch on a non-incremental file leaves `sync_data` unchanged. -/
theorem fetch_result_sync_data_other (tf : TrackingFile)
    (h : ∀ ps0, tf.sync_data ≠ SyncData.Incremental ps0) :
    tf.fetch_pending_changes.2.sync_data = tf.sync_data := by
  unfold TrackingFile.fetch_pending_changes
  cases hs : tf.sync_data with
  | Incremental ps0 => exact absurd hs (h ps0)
  | Full content => simp [hs]
  | None => simp [hs]

/-- C7 amended: construction and `fetch_pending_changes` establish the
scheduled-iff-pending invariant for incremental files, `DidClose`
handling re-establishes it, and `DidChange` handling preserves it for a
file whose `didOpen` was already sent when the change carries a range;
it does not hold for the `None` state nor across the first `DidChange`
(see the counterexample). -/
theorem sync_schedule_invariant_incremental :
    (∀ hid uri kind, incInv (TrackingFile.new hid uri kind)) ∧
    (∀ tf : TrackingFile, incInv tf.fetch_pending_changes.2) ∧
    (∀ (h : LangServerHandler) (uri : String) (tf : TrackingFile),
      incInv (Lspc.didCloseFile h uri tf).1) ∧
    (∀ (now : Nat) (h : LangServerHandler) (uri : String) (v : Int)
        (c : ContentChange) (tf : TrackingFile),
      tf.sent_did_open = true → c.range ≠ Option.none →
      incInv (Lspc.didChangeFile now h uri v c tf).1) := by
  have hfetch : ∀ tf : TrackingFile, incInv tf.fetch_pending_changes.2 := by
    intro tf ps hps
    rw [(fetch_pending_changes_behaviour tf).1]
    simp only [Option.isSome_none, Bool.false_eq_true, false_iff, ne_eq,
      not_not]
    cases h : tf.sync_data with
    | Incremental ps0 =>
        rw [fetch_result_sync_data_incremental tf ps0 h] at hps
        simp only [SyncData.Incremental.injEq] at hps
        rw [← hps]
    | Full content =>
        rw [fetch_result_sync_data_other tf (by simp [h])] at hps
        rw [h] at hps
        cases hps
    | None =>
        rw [fetch_result_sync_data_other tf (by simp [h])] at hps
        rw [h] at hps
        cases hps
  refine ⟨?_, hfetch, fun h uri tf => hfetch tf, ?_⟩
  · intro hid uri kind
    cases kind <;> intro ps hps <;>
      (simp [TrackingFile.new] at hps; try simp [TrackingFile.new, ← hps])
  · intro now h uri v c tf hsent hr
    unfold Lspc.didChangeFile
    dsimp only
    rw [(track_change_fields tf v c).1, hsent]
    simp only [Bool.true_eq_false, if_false]
    intro ps hps
    have hsched :
        ((tf.track_change v c).delay_sync_in now
          SYNC_DELAY_MS).scheduled_sync_at.isSome = true := by
      cases hs : (tf.track_change v c).scheduled_sync_at <;>
        simp [TrackingFile.delay_sync_in, hs]
    have hsync :
        ((tf.track_change v c).delay_sync_in now
          SYNC_DELAY_MS).sync_data = (tf.track_change v c).sync_data := by
      cases hs : (tf.track_change v c).scheduled_sync_at <;>
        simp [TrackingFile.delay_sync_in, hs]
    rw [hsync] at hps
    rw [hsched]
    -- the queue after a ranged `track_change` in the incremental state
    -- is never empty
    cases hsd : tf.sync_data with
    | Incremental ps0 =>
        have : (tf.track_change v c).sync_data = SyncData.Incremental
            { ps0 with content_changes :=
                TrackingFile.pushOrReplace ps0.content_changes c } := by
          unfold TrackingFile.track_change
          simp [hsd, hr]
        rw [this] at hps
        simp only [SyncData.Incremental.injEq] at hps
        subst hps
        simp [pushOrReplace_ne_nil]
    | Full content =>
        have : ∃ content', (tf.track_change v c).sync_data =
            SyncData.Full content' := by
          unfold TrackingFile.track_change
          cases hc : c.range <;> simp [hsd, hc]
        obtain ⟨content', hc'⟩ := this
        rw [hc'] at hps
        cases hps
    | None =>
        have : (tf.track_change v c).sync_data = SyncData.None := by
          unfold TrackingFile.track_change
          simp [hsd]
        rw [this] at hps
        cases hps

/-- An incremental file already opened on the server, empty queue, no
sync scheduled. -/
def tfC7w : TrackingFile := { tfDemoInc with sent_did_open := true }

/-- Concrete instance of `sync_schedule_invariant_incremental`: after a
ranged `DidChange` on an opened incremental file, a sync is
scheduled. -/
theorem sync_schedule_invariant_incremental_witness :
    (Lspc.didChangeFile 100 { id := 1, lang_id := "rust" } "file:///w" 1
      cDemo tfC7w).1.scheduled_sync_at.isSome = true := by
  have h := sync_schedule_invariant_incremental.2.2.2 100
    { id := 1, lang_id := "rust" } "file:///w" 1 cDemo tfC7w rfl
    (by simp [cDemo])
  refine (h { text_document := { uri := "file:///w", version := Option.none }
              content_changes := [cDemo] } ?_).mpr (by simp)
  decide

/-- The per-edit bounds of the claim: lines in range, both offsets
within the joined buffer, start offset at most end offset. -/
def editPre (lines : List (List Char)) (e : TextEdit) : Prop :=
  e.range.start.line ≤ lines.length ∧
  e.range.endPos.line ≤ lines.length ∧
  to_document_offset lines e.range.start ≤ (joinLines lines).length ∧
  to_document_offset lines e.range.endPos ≤ (joinLines lines).length ∧
  to_document_offset lines e.range.start ≤
    to_document_offset lines e.range.endPos

instance (lines : List (List Char)) (e : TextEdit) :
    Decidable (editPre lines e) := by
  unfold editPre; exact inferInstance

/-- The claim's precondition over all edits. -/
def claimPre (lines : List (List Char)) (edits : List TextEdit) : Prop :=
  ∀ e ∈ edits, editPre lines e

instance (lines : List (List Char)) (edits : List TextEdit) :
    Decidable (claimPre lines edits) :=
  List.decidableBAll _ edits

/-- The strengthening: every start position's character stays within its
line. -/
def charPre (lines : List (List Char)) (edits : List TextEdit) : Prop :=
  ∀ e ∈ edits, e.range.start.line < lines.length →
    e.range.start.character ≤ (lines.getD e.range.start.line []).length

instance (lines : List (List Char)) (edits : List TextEdit) :
    Decidable (charPre lines edits) :=
  List.decidableBAll _ edits

/-- Two lines `"abcdef"` / `"gh"`. -/
def c10lines : List (List Char) := ["abcdef".data, "gh".data]

/-- Edit `(0,0)-(0,8) → "Z"`: its character offsets are in bounds, but
its start character 8 overshoots line 0 (length 6). -/
def c10e0 : TextEdit :=
  { range := { start := { line := 0, character := 0 }
               endPos := { line := 0, character := 8 } }
    new_text := "Z".data }

/-- Edit `(0,8)-(0,9) → ""`. -/
def c10e1 : TextEdit :=
  { range := { start := { line := 0, character := 8 }
               endPos := { line := 0, character := 9 } }
    new_text := [] }

/-- Edit `(1,0)-(1,2) → ""`. -/
def c10e2 : TextEdit :=
  { range := { start := { line := 1, character := 0 }
               endPos := { line := 1, character := 2 } }
    new_text := [] }

/-- C10 fails as stated: all three edits satisfy the claimed
precondition (lines in range, offsets within the 9-character joined
buffer, start ≤ end), yet the walk reaches a slice whose end offset
exceeds the shrunken buffer — the guarded embedding hits the panic
branch.  A start character overshooting its line breaks the
offset-monotonicity of the sort order. -/
theorem apply_edits_unsafe_within_claimed_precondition :
    claimPre c10lines [c10e0, c10e1, c10e2] ∧
    applyEditsChecked c10lines [c10e0, c10e1, c10e2] = Option.none := by
  decide

theorem foldl_add_one (l : List Nat) (a : Nat) :
    l.foldl (fun acc cur => acc + cur + 1) a = a + l.sum + l.length := by
  induction l generalizing a with
  | nil => simp
  | cons x xs ih => simp [ih]; omega

/-- The document offset of the first character of line `n`. -/
def offBase (lines : List (List Char)) (n : Nat) : Nat :=
  ((lines.take n).map List.length).sum + (lines.take n).length

theorem to_document_offset_eq (lines : List (List Char)) (p : Pos) :
    to_document_offset lines p = offBase lines p.line + p.character := by
  unfold to_document_offset offBase
  rw [foldl_add_one]
  simp only [List.length_map]
  omega

theorem offBase_le_succ (lines : List (List Char)) (n : Nat) :
    offBase lines n ≤ offBase lines (n + 1) := by
  unfold offBase
  rw [List.take_succ]
  cases lines[n]? <;> (simp; try omega)

theorem offBase_mono (lines : List (List Char)) : Monotone (offBase lines) :=
  monotone_nat_of_le_succ (offBase_le_succ lines)

theorem offBase_succ_bound (lines : List (List Char)) (n cc : Nat)
    (hn : n < lines.length) (hc : cc ≤ (lines.getD n []).length) :
    offBase lines n + cc ≤ offBase lines (n + 1) := by
  unfold offBase
  rw [List.take_succ]
  rw [List.getElem?_eq_getElem hn]
  rw [List.getD_eq_getElem?_getD, List.getElem?_eq_getElem hn] at hc
  simp only [Option.toList_some, List.map_append, List.sum_append,
    List.length_append, List.map_cons, List.map_nil, List.sum_cons,
    List.sum_nil, List.length_cons, List.length_nil]
  simp only [Option.getD_some] at hc
  omega

/-- Sorting by the `(line, character)` key is compatible with document
offsets as long as start characters stay within their lines. -/
theorem keyLe_offset_le {lines : List (List Char)} {a b : TextEdit}
    (hk : keyLe a b)
    (hbl : b.range.start.line ≤ lines.length)
    (hac : a.range.start.line < lines.length →
      a.range.start.character ≤ (lines.getD a.range.start.line []).length) :
    to_document_offset lines a.range.start ≤
      to_document_offset lines b.range.start := by
  rw [to_document_offset_eq, to_document_offset_eq]
  rcases hk with hlt | ⟨heq, hle⟩
  · have hlt' : a.range.start.line < lines.length :=
      lt_of_lt_of_le hlt hbl
    have h1 := offBase_succ_bound lines a.range.start.line
      a.range.start.character hlt' (hac hlt')
    have h2 := offBase_mono lines (show a.range.start.line + 1 ≤
      b.range.start.line from hlt)
    omega
  · rw [heq]
    omega

/-- Safety of the reversed walk: with every remaining start offset
within the current buffer, start offsets non-increasing along the walk,
and `last_modified_offset` within the buffer, every slice stays in
bounds. -/
theorem foldlM_checked_isSome (lines : List (List Char)) :
    ∀ (rl : List TextEdit) (buf : List Char) (last : Nat),
      last ≤ buf.length →
      (∀ r ∈ rl, r.range.start.line ≤ lines.length ∧
        r.range.endPos.line ≤ lines.length ∧
        to_document_offset lines r.range.start ≤ buf.length ∧
        to_document_offset lines r.range.start ≤
          to_document_offset lines r.range.endPos) →
      List.Pairwise (fun a b => to_document_offset lines b.range.start ≤
        to_document_offset lines a.range.start) rl →
      (rl.foldlM (applyStepChecked lines) (buf, last)).isSome = true := by
  intro rl
  induction rl with
  | nil => intro buf last _ _ _; rfl
  | cons e rest ih =>
      intro buf last hlast hbnd hpw
      obtain ⟨he1, he2, he3, he4⟩ := hbnd e (List.mem_cons_self e rest)
      obtain ⟨hhead, htail⟩ := List.pairwise_cons.mp hpw
      simp only [List.foldlM_cons]
      unfold applyStepChecked toDocumentOffsetChecked
      rw [if_pos he1, if_pos he2]
      dsimp only
      by_cases hle : to_document_offset lines e.range.endPos ≤ last
      · rw [if_pos hle, if_pos ⟨le_trans he4 (le_trans hle hlast),
          le_trans hle hlast⟩]
        have hslen : (buf.take (to_document_offset lines e.range.start) ++
            e.new_text ++
            buf.drop (to_document_offset lines e.range.endPos)).length =
            to_document_offset lines e.range.start + e.new_text.length +
              (buf.length - to_document_offset lines e.range.endPos) := by
          simp only [List.length_append, List.length_take, List.length_drop]
          have := le_trans he4 (le_trans hle hlast)
          omega
        apply ih
        · rw [hslen]; omega
        · intro r hr
          obtain ⟨hr1, hr2, hr3, hr4⟩ := hbnd r (List.mem_cons_of_mem e hr)
          refine ⟨hr1, hr2, ?_, hr4⟩
          rw [hslen]
          have := hhead r hr
          omega
        · exact htail
      · rw [if_neg hle]
        apply ih
        · exact he3
        · intro r hr
          exact hbnd r (List.mem_cons_of_mem e hr)
        · exact htail

/-- The out-of-range position `(3, 0)` against a one-line document. -/
def c10badPos : Pos := { line := 3, character := 0 }

/-- A single edit whose start line exceeds the number of lines. -/
def c10badEdit : TextEdit :=
  { range := { start := c10badPos, endPos := c10badPos }, new_text := [] }

/-- C10 amended: with the claimed bounds strengthened by start
characters staying within their lines, every index and slice of
`apply_edits` is in bounds (the guarded embedding succeeds); and for an
edit whose start line exceeds the number of lines, the slice
`lines[..line]` of `to_document_offset` is out of bounds and the panic
branch is reached. -/
theorem apply_edits_checked_safety :
    (∀ (lines : List (List Char)) (edits : List TextEdit),
      claimPre lines edits → charPre lines edits →
      (applyEditsChecked lines edits).isSome = true) ∧
    toDocumentOffsetChecked ["ab".data] c10badPos = Option.none ∧
    applyEditsChecked ["ab".data] [c10badEdit] = Option.none := by
  refine ⟨?_, by decide, by decide⟩
  intro lines edits hpre hchar
  unfold applyEditsChecked
  rw [Option.isSome_map']
  have hmem : ∀ r ∈ (sortEdits edits).reverse, r ∈ edits := by
    intro r hr
    rw [List.mem_reverse] at hr
    exact (List.mem_insertionSort keyLe).mp hr
  apply foldlM_checked_isSome lines _ _ _ (le_refl _)
  · intro r hr
    obtain ⟨h1, h2, h3, _, h5⟩ := hpre r (hmem r hr)
    exact ⟨h1, h2, h3, h5⟩
  · rw [List.pairwise_reverse]
    have hsorted : List.Pairwise keyLe (sortEdits edits) :=
      List.sorted_insertionSort keyLe edits
    refine List.Pairwise.imp_of_mem ?_ hsorted
    intro a b ha hb hk
    have hamem := (List.mem_insertionSort keyLe).mp ha
    have hbmem := (List.mem_insertionSort keyLe).mp hb
    exact keyLe_offset_le hk (hpre b hbmem).1 (hchar a hamem)

/-- Concrete instance of `apply_edits_checked_safety` on the S4
formatting input. -/
theorem apply_edits_checked_safety_witness :
    (applyEditsChecked demo6lines demo6edits).isSome = true :=
  apply_edits_checked_safety.1 demo6lines demo6edits (by decide) (by decide)
